import Mathlib

/-!
Shallow embedding of the discussion orchestration engine of the
llm-roundtable repository (`backend/app/services/discussion_engine.py`):
the routing helpers, the graph transition skeleton, the bounded history
formatter with anchors, the panelist discussion node, the JSON extractor
and the host routing parser, together with theorems about the claims on
this code.

Conventions of the embedding:
* Python `str` is `String`; slicing/`len` act on code points in both.
* Python `list` is `List`; dicts with string keys are association lists
  with insertion-order semantics (`dict_set` keeps first position and
  overwrites the value, as CPython does).
* Machine integers are `Int` (Python ints are unbounded, no overflow).
* `None`-able values are `Option`; exceptions from an LLM call are an
  oracle returning `Except String String`.
-/

namespace Roundtable

/-- Embeds `next((i for i, x in enumerate(xs) if p(x)), None)`. -/
def find_first_index {α : Type} (p : α → Bool) : List α → Option Nat
  | [] => none
  | x :: rest => if p x then some 0 else (find_first_index p rest).map (· + 1)

/-- Python `str.strip()` whitespace (the ASCII whitespace characters
space, tab, newline, carriage return, vertical tab, form feed). -/
def is_py_space (c : Char) : Bool :=
  c == ' ' || c == '\t' || c == '\n' || c == '\r' ||
    c == Char.ofNat 11 || c == Char.ofNat 12

/-- Embeds Python `str.strip()`: drop leading and trailing whitespace. -/
def py_strip (s : String) : String :=
  String.mk (((s.data.dropWhile is_py_space).reverse.dropWhile is_py_space).reverse)

/-- ASCII lowercasing of one character. -/
def char_lower (c : Char) : Char :=
  if 65 ≤ c.toNat && c.toNat ≤ 90 then Char.ofNat (c.toNat + 32) else c

/-- Embeds Python `str.lower()` (ASCII range). -/
def py_lower (s : String) : String :=
  String.mk (s.data.map char_lower)

/-- Embeds `str.replace("-", "_")`. -/
def replace_hyphens (s : String) : String :=
  String.mk (s.data.map (fun c => if c == '-' then '_' else c))

/-- Split a character list at newlines (used for `str.splitlines`). -/
def split_newlines : List Char → List (List Char)
  | [] => [[]]
  | c :: rest =>
    if c == '\n' then [] :: split_newlines rest
    else
      match split_newlines rest with
      | l :: ls => (c :: l) :: ls
      | [] => [[c]]

/-- Embeds `str.splitlines()` (newline-separated lines). -/
def py_splitlines (s : String) : List String :=
  (split_newlines s.data).map String.mk

/-- Does the first list begin with the second? -/
def chars_start_with : List Char → List Char → Bool
  | _, [] => true
  | [], _ :: _ => false
  | c :: cs, p :: ps => c == p && chars_start_with cs ps

/-- Embeds `str.startswith(pre)`. -/
def py_startswith (s pre : String) : Bool :=
  chars_start_with s.data pre.data

/-- Embeds the `AgentInfo` TypedDict: one discussion participant. -/
structure AgentInfo where
  name : String
  role : String
  persona : String := ""
  provider : String := "openai"
  model : String := "gpt-4o"
  api_key : Option String := none
  base_url : Option String := none
deriving Repr, DecidableEq, Inhabited

/-- Embeds `[a for a in agents if a["role"] == role]` (`_get_agents_by_role`). -/
def get_agents_by_role (agents : List AgentInfo) (role : String) : List AgentInfo :=
  agents.filter (fun a => a.role == role)

/-- Embeds the `constraints` dict exactly as `_normalize_selection` consumes
it: `constraints.get("target_panelists") or []` (falsy collapses to the
empty list) and the truthiness of `constraints.get("avoid_all_panelists")`. -/
structure Constraints where
  target_panelists : List String := []
  avoid_all_panelists : Bool := false
deriving Repr, DecidableEq, Inhabited

/-- First phase of `_normalize_selection`: keep selected names that are
configured panelist names, falling back to all panelist names when the
intersection is empty. -/
def sel_valid (selected : List String) (names : List String) : List String :=
  let v := selected.filter (fun n => decide (n ∈ names))
  if v.isEmpty then names else v

/-- Second phase of `_normalize_selection`: when a `target_panelists`
allow-list is present, intersect with it (restricted to configured names),
falling back to the allow-list itself when the intersection is empty. -/
def sel_constrain (valid : List String) (names : List String) (targets : List String) :
    List String :=
  if targets.isEmpty then valid
  else
    let constrained := targets.filter (fun n => decide (n ∈ names))
    let inter := valid.filter (fun n => decide (n ∈ constrained))
    if inter.isEmpty then constrained else inter

/-- Third phase of `_normalize_selection`: under `avoid_all_panelists`,
truncate a selection equal in size to the full roster (with more than one
member) to its first element (`valid_selected[:1]`). -/
def sel_avoid (valid : List String) (names : List String) (avoid : Bool) : List String :=
  if avoid && valid.length == names.length && decide (1 < valid.length)
  then valid.take 1 else valid

/-- Embeds `_normalize_selection(selected, panelists, constraints)`. -/
def normalize_selection (selected : List String) (panelists : List AgentInfo)
    (constraints : Constraints) : List String :=
  let panelist_names := panelists.map (fun p => p.name)
  sel_avoid
    (sel_constrain (sel_valid selected panelist_names) panelist_names
      constraints.target_panelists)
    panelist_names constraints.avoid_all_panelists

/-! ### Graph routing skeleton (`build_discussion_graph` and the route functions) -/

/-- Truthiness of `state.get("error")` for an `Optional[str]` field. -/
def py_truthy_opt_str : Option String → Bool
  | none => false
  | some s => !s.isEmpty

/-- The fields of `DiscussionState` that the route functions read.  No graph
node writes `single_round_mode` or `max_rounds`; `current_round` is written
only by `increment_round`, and `error` only by the configuration-check
branches of the nodes (never taken for a roster with a host and at least one
panelist and mocked successful LLM calls). -/
structure RouteState where
  single_round_mode : Bool
  current_round : Int
  max_rounds : Int
  error : Option String := none
deriving Repr, DecidableEq

/-- Embeds `route_after_host_planning`: always `"panelists"`. -/
def route_after_host_planning (_s : RouteState) : String := "panelists"

/-- Embeds `route_after_panelist_discussion`. -/
def route_after_panelist_discussion (s : RouteState) : String :=
  if s.single_round_mode then "round_summary" else "critic"

/-- Embeds `route_after_round_summary`. -/
def route_after_round_summary (s : RouteState) : String :=
  if s.single_round_mode then "stop" else "next_step"

/-- Embeds `should_continue_or_synthesize`. -/
def should_continue_or_synthesize (s : RouteState) : String :=
  if py_truthy_opt_str s.error then "synthesize"
  else if s.max_rounds - 1 ≤ s.current_round then "synthesize"
  else "continue"

/-- One walk over the compiled graph of `build_discussion_graph`, recording
the visited node names: entry point `host_planning`, the conditional edges
exactly as registered there, `critic_review → host_round_summary`,
`increment_round → host_planning`, `synthesis → END`.  Fuel bounds the walk;
the routing state is only changed by `increment_round` (see `RouteState`). -/
def graph_walk (fuel : Nat) (s : RouteState) (node : String) : List String :=
  match fuel with
  | 0 => []
  | fuel + 1 =>
    if node == "host_planning" then
      node :: (if route_after_host_planning s == "panelists"
               then graph_walk fuel s "panelist_discussion" else [])
    else if node == "panelist_discussion" then
      node :: (if route_after_panelist_discussion s == "critic"
               then graph_walk fuel s "critic_review"
               else graph_walk fuel s "host_round_summary")
    else if node == "critic_review" then
      node :: graph_walk fuel s "host_round_summary"
    else if node == "host_round_summary" then
      node :: (if route_after_round_summary s == "next_step"
               then graph_walk fuel s "host_next_step_planning" else [])
    else if node == "host_next_step_planning" then
      node :: (if should_continue_or_synthesize s == "continue"
               then graph_walk fuel s "increment_round"
               else graph_walk fuel s "synthesis")
    else if node == "increment_round" then
      node :: graph_walk fuel { s with current_round := s.current_round + 1 } "host_planning"
    else if node == "synthesis" then
      [node]
    else []

/-- Run the discussion graph from the entry point with enough fuel for
`max_rounds` full cycles. -/
def run_discussion_graph (s : RouteState) : List String :=
  graph_walk (7 * (s.max_rounds.toNat + 2)) s "host_planning"

/-! ### Bounded history with anchors (`_format_history_with_anchors`) -/

/-- A transcript message dict, restricted to the keys the formatter reads.
The string defaults mirror the `msg.get(key, default)` defaults used in the
source; `round_number` is `some r` exactly when the dict holds an `int`. -/
structure Msg where
  agent_name : String := "?"
  agent_role : String := ""
  content : String := ""
  round_number : Option Int := none
  phase : String := "?"
deriving Repr, DecidableEq, Inhabited

/-- Embeds `_truncate_text(text, max_chars)`. -/
def truncate_text (text : String) (max_chars : Nat) : String :=
  let s := py_strip text
  if s.length ≤ max_chars then s else s.take max_chars ++ "..."

/-- Embeds the inner `to_line(msg, compact)` of `_format_history_with_anchors`. -/
def to_line (msg : Msg) (compact : Bool) : String :=
  let max_item : Nat :=
    if compact then (if msg.agent_role == "user" then 700 else 360)
    else (if msg.agent_role == "user" then 1200 else 700)
  let content := truncate_text msg.content max_item
  "[" ++ msg.agent_name ++ " (" ++ msg.phase ++ ")]: " ++ content

/-- The accumulator of the formatter: the `chosen` dict (index ↦ rendered
line, in insertion order) and the `used` running cost. -/
structure AnchorState where
  chosen : List (Nat × String)
  used : Nat
deriving Repr, DecidableEq

/-- Embeds `idx in chosen`. -/
def chosen_has (st : AnchorState) (idx : Nat) : Bool :=
  st.chosen.any (fun p => p.1 == idx)

/-- Embeds the inner `add_idx(idx, compact)`: skip an index already chosen,
skip when the line cost `len(line) + 2` would push `used` over the budget,
otherwise record the line and charge its cost. -/
def anchor_add (messages : List Msg) (max_total : Nat) (st : AnchorState)
    (idx : Nat) (compact : Bool) : AnchorState :=
  if chosen_has st idx then st
  else
    let line := to_line (messages.getD idx default) compact
    let cost := line.length + 2
    if max_total < st.used + cost then st
    else { chosen := st.chosen ++ [(idx, line)], used := st.used + cost }

/-- Indices of messages whose `round_number` is an int below `keep_head_rounds`. -/
def head_round_indices (messages : List Msg) (keep_head_rounds : Nat) : List Nat :=
  (List.range messages.length).filter (fun i =>
    match (messages.getD i default).round_number with
    | some r => decide (r < (keep_head_rounds : Int))
    | none => false)

/-- Indices of user-authored messages. -/
def user_indices (messages : List Msg) : List Nat :=
  (List.range messages.length).filter (fun i =>
    (messages.getD i default).agent_role == "user")

/-- Indices of the trailing `keep_tail_messages` messages
(`range(max(0, total - keep_tail_messages), total)`). -/
def tail_indices (messages : List Msg) (keep_tail_messages : Nat) : List Nat :=
  let total := messages.length
  let tail_start := total - keep_tail_messages
  List.range' tail_start (total - tail_start)

/-- Priorities 1 and 2 of the formatter: the first user message, then the
head-round messages, all rendered compact. -/
def anchor_prios_head (messages : List Msg) (keep_head_rounds : Nat) :
    List (Nat × Bool) :=
  (match find_first_index (fun m => m.agent_role == "user") messages with
   | some i => [(i, true)]
   | none => [])
  ++ (head_round_indices messages keep_head_rounds).map (fun i => (i, true))

/-- Priorities 3 and 4: all user inputs (compact), then the tail (full). -/
def anchor_prios_rest (messages : List Msg) (keep_tail_messages : Nat) :
    List (Nat × Bool) :=
  (user_indices messages).map (fun i => (i, true))
  ++ (tail_indices messages keep_tail_messages).map (fun i => (i, false))

/-- The complete sequence of `add_idx` calls the formatter performs. -/
def anchor_prios (messages : List Msg) (keep_head_rounds keep_tail_messages : Nat) :
    List (Nat × Bool) :=
  anchor_prios_head messages keep_head_rounds
  ++ anchor_prios_rest messages keep_tail_messages

/-- Fold the `add_idx` calls over an initial accumulator. -/
def anchor_run (messages : List Msg) (max_total : Nat) (st : AnchorState)
    (prios : List (Nat × Bool)) : AnchorState :=
  prios.foldl (fun t p => anchor_add messages max_total t p.1 p.2) st

/-- The final accumulator of `_format_history_with_anchors`. -/
def anchors_state (messages : List Msg)
    (max_total keep_head_rounds keep_tail_messages : Nat) : AnchorState :=
  anchor_run messages max_total ⟨[], 0⟩
    (anchor_prios messages keep_head_rounds keep_tail_messages)

/-- `sorted(chosen.keys())`: the indices of the included messages in order. -/
def anchors_included (messages : List Msg)
    (max_total keep_head_rounds keep_tail_messages : Nat) : List Nat :=
  (List.range messages.length).filter (fun i =>
    chosen_has (anchors_state messages max_total keep_head_rounds keep_tail_messages) i)

/-- Embeds `_format_history_with_anchors` itself: render the chosen lines in
index order, append the omission notice when messages were dropped, and join
with blank lines. -/
def format_history_with_anchors (messages : List Msg)
    (max_total keep_head_rounds keep_tail_messages : Nat) : String :=
  if messages.isEmpty then ""
  else
    let st := anchors_state messages max_total keep_head_rounds keep_tail_messages
    let ordered := anchors_included messages max_total keep_head_rounds keep_tail_messages
    let lines := ordered.filterMap (fun i =>
      (st.chosen.find? (fun p => p.1 == i)).map (fun p => p.2))
    let omitted := messages.length - ordered.length
    let all_lines :=
      if 0 < omitted then
        lines ++ ["（历史已裁剪：省略 " ++ toString omitted ++ " 条较低优先级消息）"]
      else lines
    String.intercalate "\n\n" all_lines

/-- Default budgets (`HISTORY_MAX_CHARS`, `HISTORY_HEAD_ROUNDS`,
`HISTORY_TAIL_MESSAGES`). -/
def HISTORY_MAX_CHARS : Nat := 50000

/-- `HISTORY_HEAD_ROUNDS` constant. -/
def HISTORY_HEAD_ROUNDS : Nat := 2

/-- `HISTORY_TAIL_MESSAGES` constant. -/
def HISTORY_TAIL_MESSAGES : Nat := 24

/-- The cost an `add_idx` call charges for a priority entry. -/
def prio_cost (messages : List Msg) (p : Nat × Bool) : Nat :=
  (to_line (messages.getD p.1 default) p.2).length + 2

/-- The summed cost of the recorded lines of an accumulator. -/
def chosen_cost (chosen : List (Nat × String)) : Nat :=
  (chosen.map (fun p => p.2.length + 2)).sum

/-! ### Panelist discussion node (`panelist_discussion_node`) -/

/-- The part of a node's return dict these claims read. -/
structure NodeResult where
  messages : List Msg := []
  phase : String := ""
  error : Option String := none
deriving Repr, DecidableEq

/-- Embeds the responder-set resolution of `panelist_discussion_node`:
`panelists = [p for p in all_panelists if p["name"] in selected] if selected
else all_panelists`, then `if not panelists: panelists = all_panelists[:1]`. -/
def resolve_panelists (all_panelists : List AgentInfo) (selected : List String) :
    List AgentInfo :=
  let panelists :=
    if selected.isEmpty then all_panelists
    else all_panelists.filter (fun p => decide (p.name ∈ selected))
  if panelists.isEmpty then all_panelists.take 1 else panelists

/-- Embeds the inner `_panelist_respond`: a successful LLM call becomes a
`discussing` message with the response; an exception is caught and becomes
an inline `[Error: ...]` message for that panelist alone. -/
def panelist_message (llm : AgentInfo → Except String String) (current_round : Int)
    (p : AgentInfo) : Msg :=
  match llm p with
  | .ok response =>
    { agent_name := p.name, agent_role := "panelist", content := response,
      round_number := some current_round, phase := "discussing" }
  | .error e =>
    { agent_name := p.name, agent_role := "panelist",
      content := "[Error: " ++ e ++ "]",
      round_number := some current_round, phase := "discussing" }

/-- Embeds `panelist_discussion_node`.  The prompt construction and the
streaming queue are irrelevant to the claims; the LLM call (and whether it
raises) is the oracle `llm`.  `asyncio.gather` returns the per-panelist
results in task order, which is the order of `panelists`. -/
def panelist_discussion_node (agents : List AgentInfo) (selected : List String)
    (current_round : Int) (llm : AgentInfo → Except String String) : NodeResult :=
  let all_panelists := get_agents_by_role agents "panelist"
  if all_panelists.isEmpty then
    { error := some "No panelist agents configured", phase := "error" }
  else
    let panelists := resolve_panelists all_panelists selected
    { messages := panelists.map (panelist_message llm current_round),
      phase := "discussing" }

/-! ### JSON parsing (`json.loads` as used by `_extract_json_object`) -/

/-- A parsed JSON value.  Numbers keep their lexeme (the engine never does
arithmetic on them; `str()` of a parsed number is close to the lexeme). -/
inductive JsonValue where
  | null
  | bool (b : Bool)
  | num (lexeme : String)
  | str (s : String)
  | arr (items : List JsonValue)
  | obj (fields : List (String × JsonValue))
deriving Repr, Inhabited

/-- The `{` character, written by code point. -/
def lbrace : Char := Char.ofNat 123

/-- The `}` character, written by code point. -/
def rbrace : Char := Char.ofNat 125

/-- JSON inter-token whitespace (space, tab, newline, carriage return). -/
def is_json_ws (c : Char) : Bool :=
  c == ' ' || c == '\t' || c == '\n' || c == '\r'

/-- Drop leading JSON whitespace. -/
def skip_ws : List Char → List Char
  | [] => []
  | c :: rest => if is_json_ws c then skip_ws rest else c :: rest

/-- One hex digit of a `\uXXXX` escape. -/
def parse_hex_digit (c : Char) : Option Nat :=
  if 48 ≤ c.toNat && c.toNat ≤ 57 then some (c.toNat - 48)
  else if 97 ≤ c.toNat && c.toNat ≤ 102 then some (c.toNat - 87)
  else if 65 ≤ c.toNat && c.toNat ≤ 70 then some (c.toNat - 55)
  else none

/-- Parse the body of a JSON string after the opening quote: ends at an
unescaped quote, rejects raw control characters, accepts the JSON escape
sequences. -/
def parse_json_string_chars (fuel : Nat) (cs : List Char) (acc : List Char) :
    Option (String × List Char) :=
  match fuel, cs with
  | 0, _ => none
  | _, [] => none
  | fuel + 1, c :: rest =>
    if c == '"' then some (String.mk acc.reverse, rest)
    else if c == '\\' then
      match rest with
      | [] => none
      | e :: rest2 =>
        if e == '"' then parse_json_string_chars fuel rest2 ('"' :: acc)
        else if e == '\\' then parse_json_string_chars fuel rest2 ('\\' :: acc)
        else if e == '/' then parse_json_string_chars fuel rest2 ('/' :: acc)
        else if e == 'b' then parse_json_string_chars fuel rest2 (Char.ofNat 8 :: acc)
        else if e == 'f' then parse_json_string_chars fuel rest2 (Char.ofNat 12 :: acc)
        else if e == 'n' then parse_json_string_chars fuel rest2 ('\n' :: acc)
        else if e == 'r' then parse_json_string_chars fuel rest2 ('\r' :: acc)
        else if e == 't' then parse_json_string_chars fuel rest2 ('\t' :: acc)
        else if e == 'u' then
          match rest2 with
          | h1 :: h2 :: h3 :: h4 :: rest3 =>
            match parse_hex_digit h1, parse_hex_digit h2,
                parse_hex_digit h3, parse_hex_digit h4 with
            | some a, some b, some c2, some d =>
              parse_json_string_chars fuel rest3
                (Char.ofNat (a * 4096 + b * 256 + c2 * 16 + d) :: acc)
            | _, _, _, _ => none
          | _ => none
        else none
    else if c.toNat < 32 then none
    else parse_json_string_chars fuel rest (c :: acc)

/-- Take a maximal run of ASCII digits. -/
def take_digits : List Char → (List Char × List Char)
  | [] => ([], [])
  | c :: rest =>
    if c.isDigit then
      let (d, r) := take_digits rest
      (c :: d, r)
    else ([], c :: rest)

/-- Parse a JSON number per the grammar
`-?(0|[1-9][0-9]*)([.][0-9]+)?([eE][+-]?[0-9]+)?`, returning the lexeme.
A dot or exponent marker not followed by digits is left unconsumed, as the
regex-based scanner does. -/
def parse_json_number (cs : List Char) : Option (String × List Char) :=
  let (sign, cs1) :=
    match cs with
    | '-' :: r => (['-'], r)
    | _ => (([] : List Char), cs)
  match cs1 with
  | [] => none
  | c :: rest =>
    if c == '0' || (c.isDigit && !(c == '0')) then
      let (int_more, cs2) :=
        if c == '0' then (([] : List Char), rest)
        else take_digits rest
      let (frac, cs3) :=
        match cs2 with
        | '.' :: r =>
          match take_digits r with
          | ([], _) => (([] : List Char), cs2)
          | (d, r2) => ('.' :: d, r2)
        | _ => (([] : List Char), cs2)
      let (expo, cs4) :=
        match cs3 with
        | e :: r =>
          if e == 'e' || e == 'E' then
            let (s2, r1) :=
              match r with
              | '+' :: r2 => (['+'], r2)
              | '-' :: r2 => (['-'], r2)
              | _ => (([] : List Char), r)
            match take_digits r1 with
            | ([], _) => (([] : List Char), cs3)
            | (d, r2) => (e :: s2 ++ d, r2)
          else (([] : List Char), cs3)
        | [] => (([] : List Char), cs3)
      some (String.mk (sign ++ c :: int_more ++ frac ++ expo), cs4)
    else none

/-- Drop `pre` from the head of `cs` when it matches. -/
def drop_literal (pre : List Char) (cs : List Char) : Option (List Char) :=
  match pre, cs with
  | [], rest => some rest
  | _ :: _, [] => none
  | p :: ps, c :: rest => if p == c then drop_literal ps rest else none

/-- Parsing mode: a value, the members of an object after `{`, or the
elements of an array after `[` (with the fields/items parsed so far). -/
inductive PMode where
  | value
  | members (acc : List (String × JsonValue))
  | elements (acc : List JsonValue)

/-- Recursive-descent JSON parser, fuelled.  Mirrors `json.loads`'s scanner:
objects and arrays allow whitespace between tokens, constants are `true`,
`false`, `null` plus the Python extensions `NaN`, `Infinity`,
`-Infinity`. -/
def parse_json : Nat → PMode → List Char → Option (JsonValue × List Char)
  | 0, _, _ => none
  | fuel + 1, .value, cs =>
    match cs with
    | [] => none
    | c :: rest =>
      if c == '"' then
        match parse_json_string_chars (fuel + 1) rest [] with
        | some (s, r) => some (.str s, r)
        | none => none
      else if c == lbrace then
        match skip_ws rest with
        | c2 :: r2 =>
          if c2 == rbrace then some (.obj [], r2)
          else parse_json fuel (.members []) (skip_ws rest)
        | [] => none
      else if c == '[' then
        match skip_ws rest with
        | c2 :: r2 =>
          if c2 == ']' then some (.arr [], r2)
          else parse_json fuel (.elements []) (skip_ws rest)
        | [] => none
      else if c == 't' then
        (drop_literal ['r', 'u', 'e'] rest).map (fun r => (.bool true, r))
      else if c == 'f' then
        (drop_literal ['a', 'l', 's', 'e'] rest).map (fun r => (.bool false, r))
      else if c == 'n' then
        (drop_literal ['u', 'l', 'l'] rest).map (fun r => (.null, r))
      else if c == 'N' then
        (drop_literal ['a', 'N'] rest).map (fun r => (.num "NaN", r))
      else if c == 'I' then
        (drop_literal ['n', 'f', 'i', 'n', 'i', 't', 'y'] rest).map
          (fun r => (.num "Infinity", r))
      else if c == '-' && (drop_literal ['I'] rest).isSome then
        (drop_literal ['I', 'n', 'f', 'i', 'n', 'i', 't', 'y'] rest).map
          (fun r => (.num "-Infinity", r))
      else
        (parse_json_number cs).map (fun p => (.num p.1, p.2))
  | fuel + 1, .members acc, cs =>
    match cs with
    | c :: rest =>
      if c == '"' then
        match parse_json_string_chars (fuel + 1) rest [] with
        | some (key, cs2) =>
          match skip_ws cs2 with
          | c2 :: cs3 =>
            if c2 == ':' then
              match parse_json fuel .value (skip_ws cs3) with
              | some (v, cs4) =>
                match skip_ws cs4 with
                | c3 :: cs5 =>
                  if c3 == ',' then
                    parse_json fuel (.members (acc ++ [(key, v)])) (skip_ws cs5)
                  else if c3 == rbrace then some (.obj (acc ++ [(key, v)]), cs5)
                  else none
                | [] => none
              | none => none
            else none
          | [] => none
        | none => none
      else none
    | [] => none
  | fuel + 1, .elements acc, cs =>
    match parse_json fuel .value cs with
    | some (v, cs2) =>
      match skip_ws cs2 with
      | c :: cs3 =>
        if c == ',' then parse_json fuel (.elements (acc ++ [v])) (skip_ws cs3)
        else if c == ']' then some (.arr (acc ++ [v]), cs3)
        else none
      | [] => none
    | none => none

/-- Embeds `json.loads(s)` for a top-level document: skip leading
whitespace, parse one value, require only whitespace after it. -/
def json_loads (s : String) : Option JsonValue :=
  match parse_json (2 * s.length + 4) .value (skip_ws s.data) with
  | some (v, rest) => if (skip_ws rest).isEmpty then some v else none
  | none => none

/-! ### JSON extraction (`_strip_code_fence`, `_extract_json_object`) -/

/-- Embeds `_strip_code_fence`: strip, and when the text opens a code fence
drop the first line and a trailing fence line, then strip again.
(`str.splitlines` is modelled as splitting on newline.) -/
def strip_code_fence (text : String) : String :=
  let stripped := py_strip text
  if py_startswith stripped "```" then
    let lines := (py_splitlines stripped).drop 1
    let lines2 :=
      match lines.getLast? with
      | some last =>
        if py_startswith (py_strip last) "```" then lines.dropLast else lines
      | none => lines
    py_strip (String.intercalate "\n" lines2)
  else stripped

/-- Embeds `List.findIdx?`-style search for the last matching position. -/
def find_last_index {α : Type} (p : α → Bool) (xs : List α) : Option Nat :=
  match find_first_index p xs.reverse with
  | some i => some (xs.length - 1 - i)
  | none => none

/-- Embeds `re.search(r"\x7b.*\x7d", s, re.DOTALL)`: the leftmost-greedy
match runs from the first `{` to the last `}` when the latter comes after
the former. -/
def brace_substring (s : String) : Option String :=
  match find_first_index (fun c => c == lbrace) s.data,
      find_last_index (fun c => c == rbrace) s.data with
  | some i, some j =>
    if i < j then some (String.mk ((s.data.drop i).take (j - i + 1))) else none
  | _, _ => none

/-- Is the parsed value a JSON object (a Python `dict`)? -/
def is_json_obj : JsonValue → Bool
  | .obj _ => true
  | _ => false

/-- Embeds `_extract_json_object`: parse the fence-stripped text and return
the fields when it is an object, `None` when it parses to a non-object; on a
parse error, retry on the brace substring with the same object check. -/
def extract_json_object (text : String) : Option (List (String × JsonValue)) :=
  let cleaned := strip_code_fence text
  match json_loads cleaned with
  | some (.obj fields) => some fields
  | some _ => none
  | none =>
    match brace_substring cleaned with
    | none => none
    | some sub =>
      match json_loads sub with
      | some (.obj fields) => some fields
      | _ => none

/-! ### Python value coercions used by `_parse_host_routing` -/

/-- Is a JSON number lexeme a nonzero float/int (Python truthiness)? -/
def num_lexeme_truthy (lex : String) : Bool :=
  if lex == "NaN" || lex == "Infinity" || lex == "-Infinity" then true
  else
    ((lex.data.takeWhile (fun c => !(c == 'e') && !(c == 'E'))).filter Char.isDigit).any
      (fun c => !(c == '0'))

/-- Python truthiness of a parsed JSON value (`None`, `False`, `0`, `""`,
`[]`, `{}` are falsy). -/
def py_truthy : JsonValue → Bool
  | .null => false
  | .bool b => b
  | .num lex => num_lexeme_truthy lex
  | .str s => !s.isEmpty
  | .arr items => !items.isEmpty
  | .obj fields => !fields.isEmpty

/-- The apostrophe character, written by code point. -/
def squote : String := String.singleton (Char.ofNat 39)

/-- Python `repr()` of a parsed JSON value, used inside `str()` of
containers.  Numbers render as their lexeme. -/
def py_repr : JsonValue → String
  | .null => "None"
  | .bool true => "True"
  | .bool false => "False"
  | .num lex => lex
  | .str s => squote ++ s ++ squote
  | .arr items =>
    "[" ++ String.intercalate ", " (items.attach.map (fun x => py_repr x.1)) ++ "]"
  | .obj fields =>
    "\x7b" ++
      String.intercalate ", "
        (fields.attach.map (fun x => squote ++ x.1.1 ++ squote ++ ": " ++ py_repr x.1.2))
      ++ "\x7d"
decreasing_by
  · have h := List.sizeOf_lt_of_mem x.2
    simp only [JsonValue.arr.sizeOf_spec]
    omega
  · have h := List.sizeOf_lt_of_mem x.2
    have h2 : sizeOf x.1.2 < sizeOf x.1 := by
      rcases x with ⟨⟨k, v⟩, hm⟩
      simp
    simp only [JsonValue.obj.sizeOf_spec]
    omega

/-- Python `str()` of a parsed JSON value. -/
def py_str : JsonValue → String
  | .str s => s
  | v => py_repr v

/-- Python `a or b` over parsed JSON values. -/
def py_or (a b : JsonValue) : JsonValue :=
  if py_truthy a then a else b

/-- `dict.get(k)` over the parsed object fields (`None` when missing; a
duplicated JSON key keeps the last value, as `dict` does). -/
def dict_getJ (fields : List (String × JsonValue)) (k : String) : JsonValue :=
  fields.foldl (fun acc p => if p.1 == k then p.2 else acc) .null

/-- `dict.get(k, default)` with a JSON default. -/
def dict_getJD (fields : List (String × JsonValue)) (k : String) (dflt : JsonValue) :
    JsonValue :=
  fields.foldl (fun acc p => if p.1 == k then p.2 else acc) dflt

/-- `dict.items()` after building a dict from possibly duplicated parsed
keys: first occurrence keeps its position, later occurrences overwrite the
value. -/
def dict_itemsJ (fields : List (String × JsonValue)) : List (String × JsonValue) :=
  fields.foldl (fun acc p =>
    if acc.any (fun q => q.1 == p.1) then
      acc.map (fun q => if q.1 == p.1 then (q.1, p.2) else q)
    else acc ++ [p]) []

/-- String-valued dict used for `tasks`: `tasks.get(name)`. -/
def dict_get (d : List (String × String)) (k : String) : Option String :=
  (d.find? (fun p => p.1 == k)).map (fun p => p.2)

/-- String-valued dict used for `tasks`: `tasks[k] = v` (keeps the first
position of an existing key, appends a new key). -/
def dict_set (d : List (String × String)) (k v : String) : List (String × String) :=
  if d.any (fun p => p.1 == k) then
    d.map (fun p => if p.1 == k then (k, v) else p)
  else d ++ [(k, v)]

/-! ### Host routing parser (`_parse_host_routing` and helpers) -/

/-- Embeds `_normalize_execution_mode(raw_mode)`: stringify the raw value
(falsy becomes the empty string), strip, lowercase, turn hyphens into
underscores, then map the two `host_only` spellings to `"host_only"` and
everything else to `"panelists"`. -/
def execution_mode_candidate (raw_mode : JsonValue) : String :=
  replace_hyphens (py_lower (py_strip (py_str (py_or raw_mode (.str "")))))

/-- The final comparison of `_normalize_execution_mode`. -/
def normalize_execution_mode (raw_mode : JsonValue) : String :=
  if execution_mode_candidate raw_mode == "host_only" ||
      execution_mode_candidate raw_mode == "hostonly" then "host_only"
  else "panelists"

/-- Embeds `_normalize_open_tasks(raw_tasks)`. -/
def normalize_open_tasks (raw_tasks : JsonValue) : List String :=
  match raw_tasks with
  | .arr items =>
    (items.map (fun it => py_strip (py_str it))).filter (fun s => !s.isEmpty)
  | .str s =>
    let task := py_strip s
    if task.isEmpty then [] else [task]
  | _ => []

/-- The default per-panelist task assigned by `_parse_host_routing`. -/
def DEFAULT_TASK : String := "请结合你的专业视角，直接回应主持人的问题与用户最新需求。"

/-- The default `intent_judgment` text. -/
def DEFAULT_INTENT : String := "用户意图未明确，默认按常规讨论推进。"

/-- The default `host_position` text. -/
def DEFAULT_POSITION : String := "主持人建议先聚焦可验证结论，再决定是否扩展讨论范围。"

/-- The fallback `open_tasks` entry. -/
def FALLBACK_OPEN_TASK : String := "请确认该主线是否可直接进入执行；若否，请指出最小补充信息。"

/-- The 9-tuple `_parse_host_routing` returns, as a structure. -/
structure RoutingDecision where
  plan_text : String
  selected : List String
  tasks : List (String × String)
  needs_synthesis : Bool
  execution_mode : String
  intent_judgment : String
  host_position : String
  reasoning_text : String
  open_tasks : List String
deriving Repr

/-- The part of `_parse_host_routing` that reads a successfully parsed,
non-empty JSON object. -/
def routing_from_parsed (fields : List (String × JsonValue)) (raw_plan : String) :
    RoutingDecision :=
  let reasoning_text := py_strip (py_str (py_or (dict_getJ fields "reasoning") (.str "")))
  let plan_text :=
    py_strip (py_str (py_or (dict_getJ fields "discussion_plan")
      (py_or (dict_getJ fields "reasoning") (.str (py_strip raw_plan)))))
  let execution_mode := normalize_execution_mode (dict_getJ fields "execution_mode")
  let intent_judgment :=
    py_strip (py_str (py_or (dict_getJ fields "intent_judgment") (.str DEFAULT_INTENT)))
  let host_position :=
    py_strip (py_str (py_or (dict_getJ fields "host_position")
      (py_or (.str reasoning_text) (.str DEFAULT_POSITION))))
  let open_tasks := normalize_open_tasks (dict_getJ fields "open_tasks")
  let selected0 : List String :=
    match dict_getJ fields "selected_panelists" with
    | .arr names =>
      (names.map (fun n => py_strip (py_str n))).filter (fun s => !s.isEmpty)
    | _ => []
  let tasks_selected : List (String × String) × List String :=
    match dict_getJ fields "assignments" with
    | .obj afields =>
      let tasks := (dict_itemsJ afields).foldl
        (fun (acc : List (String × String)) p =>
          let n := py_strip p.1
          let t := py_strip (py_str p.2)
          if !n.isEmpty && !t.isEmpty then dict_set acc n t else acc) []
      (tasks,
       if selected0.isEmpty && !tasks.isEmpty then tasks.map (fun p => p.1)
       else selected0)
    | .arr items =>
      let tasks := items.foldl
        (fun (acc : List (String × String)) it =>
          match it with
          | .obj ifields =>
            let n := py_strip (py_str (dict_getJD ifields "panelist" (.str "")))
            let t := py_strip (py_str (dict_getJD ifields "task" (.str "")))
            if !n.isEmpty && !t.isEmpty then dict_set acc n t else acc
          | _ => acc) []
      (tasks,
       if selected0.isEmpty && !tasks.isEmpty then tasks.map (fun p => p.1)
       else selected0)
    | _ => ([], selected0)
  let needs_synthesis : Bool :=
    match dict_getJ fields "needs_synthesis" with
    | .bool b => b
    | _ => false
  { plan_text := plan_text, selected := tasks_selected.2, tasks := tasks_selected.1,
    needs_synthesis := needs_synthesis, execution_mode := execution_mode,
    intent_judgment := intent_judgment, host_position := host_position,
    reasoning_text := reasoning_text, open_tasks := open_tasks }

/-- The `for name in selected: if not tasks.get(name): tasks[name] = ...`
loop of `_parse_host_routing`: give every selected panelist without a
(non-empty) task the default task. -/
def fill_default_tasks (tasks : List (String × String)) (names : List String) :
    List (String × String) :=
  names.foldl (fun acc name =>
    if ((dict_get acc name).getD "").isEmpty then dict_set acc name DEFAULT_TASK
    else acc) tasks

/-- Embeds `_parse_host_routing(raw_plan, panelists, constraints,
single_round_mode)`.  Note `if parsed:` — an empty parsed dict takes the
default path exactly like unparseable input. -/
def parse_host_routing (raw_plan : String) (panelists : List AgentInfo)
    (constraints : Constraints) (single_round_mode : Bool) : RoutingDecision :=
  let panelist_names := panelists.map (fun p => p.name)
  let defaults : RoutingDecision :=
    { plan_text := py_strip raw_plan, selected := [], tasks := [],
      needs_synthesis := false, execution_mode := "panelists",
      intent_judgment := DEFAULT_INTENT, host_position := DEFAULT_POSITION,
      reasoning_text := "", open_tasks := [] }
  let d1 :=
    match extract_json_object raw_plan with
    | some fields =>
      if fields.isEmpty then defaults else routing_from_parsed fields raw_plan
    | none => defaults
  let d2 :=
    if d1.execution_mode == "panelists" then
      let sel1 := normalize_selection d1.selected panelists constraints
      let sel2 :=
        if sel1.isEmpty && !panelist_names.isEmpty then panelist_names.take 1
        else sel1
      { d1 with selected := sel2, tasks := fill_default_tasks d1.tasks sel2 }
    else { d1 with selected := [], tasks := [] }
  let d3 := if !single_round_mode then { d2 with needs_synthesis := false } else d2
  if d3.open_tasks.isEmpty then { d3 with open_tasks := [FALLBACK_OPEN_TASK] } else d3

/-! ### Lemmas about the selection normalization phases -/

lemma sel_valid_def (s names : List String) :
    sel_valid s names =
      if (s.filter (fun n => decide (n ∈ names))).isEmpty then names
      else s.filter (fun n => decide (n ∈ names)) := rfl

lemma sel_constrain_def (v names targets : List String) :
    sel_constrain v names targets =
      if targets.isEmpty then v
      else
        if (v.filter (fun n =>
              decide (n ∈ targets.filter (fun n => decide (n ∈ names))))).isEmpty then
          targets.filter (fun n => decide (n ∈ names))
        else
          v.filter (fun n =>
            decide (n ∈ targets.filter (fun n => decide (n ∈ names)))) := rfl

lemma sel_avoid_def (v names : List String) (avoid : Bool) :
    sel_avoid v names avoid =
      if avoid && v.length == names.length && decide (1 < v.length)
      then v.take 1 else v := rfl

lemma normalize_selection_def (selected : List String) (panelists : List AgentInfo)
    (constraints : Constraints) :
    normalize_selection selected panelists constraints =
      sel_avoid
        (sel_constrain (sel_valid selected (panelists.map (fun p => p.name)))
          (panelists.map (fun p => p.name)) constraints.target_panelists)
        (panelists.map (fun p => p.name)) constraints.avoid_all_panelists := rfl

lemma mem_sel_valid {x : String} {s names : List String}
    (h : x ∈ sel_valid s names) : x ∈ names := by
  rw [sel_valid_def] at h
  split at h
  · exact h
  · exact of_decide_eq_true (List.mem_filter.1 h).2

lemma mem_sel_constrain {x : String} {v names targets : List String}
    (hv : ∀ y ∈ v, y ∈ names) (h : x ∈ sel_constrain v names targets) : x ∈ names := by
  rw [sel_constrain_def] at h
  split at h
  · exact hv x h
  · split at h
    · exact of_decide_eq_true (List.mem_filter.1 h).2
    · exact hv x (List.mem_filter.1 h).1

lemma mem_sel_constrain_targets {x : String} {v names targets : List String}
    (ht : targets.isEmpty = false) (h : x ∈ sel_constrain v names targets) :
    x ∈ targets.filter (fun n => decide (n ∈ names)) := by
  rw [sel_constrain_def] at h
  split at h
  · next hc => simp [ht] at hc
  · split at h
    · exact h
    · exact of_decide_eq_true (List.mem_filter.1 h).2

lemma sel_avoid_sub {x : String} {v names : List String} {avoid : Bool}
    (h : x ∈ sel_avoid v names avoid) : x ∈ v := by
  rw [sel_avoid_def] at h
  split at h
  · exact List.take_subset 1 v h
  · exact h

lemma sel_avoid_shape (v names : List String) (avoid : Bool) :
    (sel_avoid v names avoid = v ∧
      (avoid && v.length == names.length && decide (1 < v.length)) = false) ∨
    (sel_avoid v names avoid = v.take 1 ∧
      (avoid && v.length == names.length && decide (1 < v.length)) = true) := by
  rw [sel_avoid_def]
  split
  · next hc => exact Or.inr ⟨rfl, hc⟩
  · next hc => exact Or.inl ⟨rfl, by simpa using hc⟩

lemma nodup_filter_single (l : List String) (b : String) (h : l.Nodup) :
    l.filter (fun n => n == b) = [] ∨ l.filter (fun n => n == b) = [b] := by
  induction l with
  | nil => exact Or.inl rfl
  | cons a t ih =>
    rcases List.nodup_cons.1 h with ⟨hat, hnd⟩
    by_cases hab : a = b
    · subst hab
      rw [List.filter_cons_of_pos (by simp)]
      right
      have hnil : t.filter (fun n => n == a) = [] := by
        rw [List.filter_eq_nil_iff]
        intro x hx hxa
        exact hat (beq_iff_eq.1 hxa ▸ hx)
      rw [hnil]
    · rw [List.filter_cons_of_neg (by simp [hab])]
      exact ih hnd

/-! ### Concrete fixtures used by several claims -/

/-- Panelist "A" of the two-panelist roster. -/
def pA : AgentInfo := { name := "A", role := "panelist" }

/-- Panelist "B" of the two-panelist roster. -/
def pB : AgentInfo := { name := "B", role := "panelist" }

/-- A host agent. -/
def host_h : AgentInfo := { name := "H", role := "host" }

/-- The two-panelist roster `["A", "B"]`. -/
def roster_ab : List AgentInfo := [pA, pB]

/-- The constraint `target_panelists = ["B"]`. -/
def constraints_target_b : Constraints := { target_panelists := ["B"] }

/-- C4 (amended).  With roster `["A", "B"]` and the constraint
`target_panelists = ["B"]`, `_normalize_selection` maps every
duplicate-free input selection — `["A"]`, `["A", "B"]`, `[]`, unknown
names — to exactly `["B"]`: the selection is intersected with the
allow-list and the allow-list itself is used when the intersection is
empty.  (Selections that repeat `"B"` keep the duplicates, which is why
the duplicate-free hypothesis is needed; see the counterexample.) -/
theorem target_constraint_forces_selection (sel : List String) (h : sel.Nodup) :
    normalize_selection sel roster_ab constraints_target_b = ["B"] := by
  rw [normalize_selection_def]
  have hnames : roster_ab.map (fun p => p.name) = ["A", "B"] := rfl
  have hT : constraints_target_b.target_panelists = ["B"] := rfl
  have hA : constraints_target_b.avoid_all_panelists = false := rfl
  rw [hnames, hT, hA, sel_valid_def]
  by_cases hv : (sel.filter (fun n => decide (n ∈ (["A", "B"] : List String)))).isEmpty
  · rw [if_pos hv]
    decide
  · rw [if_neg hv]
    have hsc : sel_constrain
        (sel.filter (fun n => decide (n ∈ (["A", "B"] : List String)))) ["A", "B"] ["B"] =
        if ((sel.filter (fun n => decide (n ∈ (["A", "B"] : List String)))).filter
              (fun n => decide (n ∈ (["B"] : List String)))).isEmpty then ["B"]
        else (sel.filter (fun n => decide (n ∈ (["A", "B"] : List String)))).filter
          (fun n => decide (n ∈ (["B"] : List String))) := rfl
    rw [hsc]
    have hconv : (sel.filter (fun n => decide (n ∈ (["A", "B"] : List String)))).filter
          (fun n => decide (n ∈ (["B"] : List String))) =
        (sel.filter (fun n => decide (n ∈ (["A", "B"] : List String)))).filter
          (fun n => n == "B") :=
      List.filter_congr (fun x _ => by by_cases hx : x = "B" <;> simp [hx])
    rw [hconv]
    rcases nodup_filter_single
        (sel.filter (fun n => decide (n ∈ (["A", "B"] : List String)))) "B"
        (h.filter _) with hres | hres
    · rw [hres]
      decide
    · rw [hres]
      decide

/-- C4 counterexample.  The claim quantifies over every possible input
selection, but the selection `["B", "B"]` (a duplicated allow-listed name)
normalizes to `["B", "B"]`, not to exactly `["B"]`: the intersection
filters keep multiplicity. -/
theorem duplicate_selection_breaks_target_constraint :
    normalize_selection ["B", "B"] roster_ab constraints_target_b = ["B", "B"] ∧
    ¬ normalize_selection ["B", "B"] roster_ab constraints_target_b = ["B"] := by
  decide

/-- C4 witness: the amended theorem applied at the concrete selection `["A"]`. -/
theorem target_constraint_forces_selection_witness :
    normalize_selection ["A"] roster_ab constraints_target_b = ["B"] :=
  target_constraint_forces_selection ["A"] (by decide)

/-- C7.  `_normalize_selection` is idempotent: renormalizing its own output
with the same roster and constraints returns the output unchanged, for every
input selection, roster and constraints dict. -/
theorem normalize_selection_idempotent (selected : List String)
    (panelists : List AgentInfo) (constraints : Constraints) :
    normalize_selection (normalize_selection selected panelists constraints)
        panelists constraints =
      normalize_selection selected panelists constraints := by
  rw [normalize_selection_def selected, normalize_selection_def]
  set names := panelists.map (fun p => p.name) with hnames
  set T := constraints.target_panelists with hT
  set A := constraints.avoid_all_panelists with hA
  set r := sel_constrain (sel_valid selected names) names T with hr
  set out := sel_avoid r names A with hout
  have hrN : ∀ x ∈ r, x ∈ names := fun x hx =>
    mem_sel_constrain (fun y hy => mem_sel_valid hy) hx
  have houtN : ∀ x ∈ out, x ∈ names := fun x hx => hrN x (sel_avoid_sub hx)
  have hfilter : out.filter (fun n => decide (n ∈ names)) = out :=
    List.filter_eq_self.mpr (fun a ha => decide_eq_true (houtN a ha))
  by_cases hempty : out = []
  · -- the first application produced the empty selection
    have hr0 : r = [] := by
      rcases sel_avoid_shape r names A with ⟨hsh, _⟩ | ⟨hsh, hc⟩
      · rw [← hsh, ← hout, hempty]
      · exfalso
        have h1 : 1 < r.length := by
          simp only [Bool.and_eq_true, decide_eq_true_eq] at hc
          exact hc.2
        have h2 : out.length = 1 := by
          rw [hout, hsh, List.length_take]
          omega
        rw [hempty] at h2
        simp at h2
    have hsv : sel_valid ([] : List String) names = names := by
      rw [sel_valid_def]
      simp
    rw [hempty, hsv]
    by_cases ht : T.isEmpty = true
    · -- no target constraint: the empty output forces an empty roster
      have hnames0 : names = [] := by
        have hv : sel_valid selected names = [] := by
          have : r = sel_valid selected names := by
            rw [hr, sel_constrain_def, if_pos ht]
          rw [← this, hr0]
        rw [sel_valid_def] at hv
        split at hv
        · exact hv
        · next hne =>
          rw [hv] at hne
          simp at hne
      rw [hnames0]
      have hsc0 : sel_constrain [] ([] : List String) T = [] := by
        rw [sel_constrain_def]
        split
        · rfl
        · simp
      rw [hsc0, sel_avoid_def]
      simp
    · -- target constraint present but no allow-listed name is configured
      have htf : T.isEmpty = false := by
        cases hc : T.isEmpty
        · rfl
        · exact absurd hc ht
      have hcon : T.filter (fun n => decide (n ∈ names)) = [] := by
        rw [hr, sel_constrain_def] at hr0
        rw [if_neg (by simp [htf])] at hr0
        split at hr0
        · exact hr0
        · next hne =>
          rw [hr0] at hne
          simp at hne
      rw [sel_constrain_def, if_neg (by simp [htf])]
      have hinter : names.filter
          (fun n => decide (n ∈ T.filter (fun n => decide (n ∈ names)))) = [] := by
        rw [List.filter_eq_nil_iff]
        intro x _ hx
        rw [hcon] at hx
        simp at hx
      rw [hinter]
      simp only [List.isEmpty_nil, if_pos]
      rw [hcon, sel_avoid_def]
      split
      · next hc =>
        simp at hc
      · rfl
  · -- the first application produced a non-empty selection
    have hsv2 : sel_valid out names = out := by
      rw [sel_valid_def, hfilter]
      simp [List.isEmpty_iff, hempty]
    have hsc2 : sel_constrain out names T = out := by
      by_cases ht : T.isEmpty = true
      · rw [sel_constrain_def, if_pos ht]
      · have htf : T.isEmpty = false := by
          cases hc : T.isEmpty
          · rfl
          · exact absurd hc ht
        have hmem : ∀ x ∈ out, x ∈ T.filter (fun n => decide (n ∈ names)) := fun x hx =>
          mem_sel_constrain_targets htf (sel_avoid_sub hx)
        rw [sel_constrain_def, if_neg (by simp [htf])]
        have hfo : out.filter
            (fun n => decide (n ∈ T.filter (fun n => decide (n ∈ names)))) = out :=
          List.filter_eq_self.mpr (fun a ha => decide_eq_true (hmem a ha))
        rw [hfo]
        simp [List.isEmpty_iff, hempty]
    rw [hsv2, hsc2]
    rcases sel_avoid_shape r names A with ⟨hsh, hc⟩ | ⟨hsh, hc⟩
    · have hor : out = r := hout.trans hsh
      rw [hor, sel_avoid_def]
      simp only [hc, if_false]
      rfl
    · have hor : out = r.take 1 := hout.trans hsh
      have h1 : out.length ≤ 1 := by
        rw [hor, List.length_take]
        omega
      have hd : decide (1 < out.length) = false := decide_eq_false (by omega)
      rw [sel_avoid_def]
      simp [hd]

/-- C1.  Contrary to the claim (and to the repository's own tests
`test_incremental_mode_goes_to_critic` and
`test_incremental_graph_is_single_round_with_critic`), in single-round
incremental mode `route_after_panelist_discussion` returns
`"round_summary"`, so the graph run visits
`[host_planning, panelist_discussion, host_round_summary]` and halts —
`critic_review` is skipped. -/
theorem single_round_trace_skips_critic :
    route_after_panelist_discussion
        { single_round_mode := true, current_round := 0, max_rounds := 3 } =
      "round_summary" ∧
    run_discussion_graph
        { single_round_mode := true, current_round := 0, max_rounds := 3 } =
      ["host_planning", "panelist_discussion", "host_round_summary"] ∧
    run_discussion_graph
        { single_round_mode := true, current_round := 0, max_rounds := 3 } ≠
      ["host_planning", "panelist_discussion", "critic_review", "host_round_summary"] := by
  refine ⟨rfl, by decide, by decide⟩

/-- C8 (amended).  `_normalize_execution_mode` maps every raw value to
exactly `"panelists"` or `"host_only"`; but hyphenated `host_only`
spellings such as `"host-only"` do NOT collapse to `"panelists"` — hyphens
are replaced with underscores before the comparison, so they normalize to
`"host_only"`.  Values whose normalization is neither `"host_only"` nor
`"hostonly"` collapse to `"panelists"`. -/
theorem execution_mode_normalization_total (raw : JsonValue) :
    (normalize_execution_mode raw = "panelists" ∨
      normalize_execution_mode raw = "host_only") ∧
    normalize_execution_mode (.str "host-only") = "host_only" ∧
    normalize_execution_mode (.str "HOST-ONLY") = "host_only" ∧
    normalize_execution_mode (.str "host only") = "panelists" ∧
    normalize_execution_mode .null = "panelists" := by
  refine ⟨?_, by decide, by decide, by decide, by decide⟩
  unfold normalize_execution_mode
  split
  · exact Or.inr rfl
  · exact Or.inl rfl

/-- C8 counterexample.  The claim says every value other than the
`host_only`/`hostonly` spellings — including hyphenated variants such as
`"host-only"` — collapses to `"panelists"`; but the code normalizes
`"host-only"` to `"host_only"`. -/
theorem hyphenated_host_only_not_panelists :
    normalize_execution_mode (.str "host-only") = "host_only" ∧
    ¬ normalize_execution_mode (.str "host-only") = "panelists" := by
  refine ⟨by decide, by decide⟩

/-- C9 (amended).  In `panelist_discussion_node`, an EMPTY selected list
resolves to ALL configured panelists, not to the first one; the fallback to
`all_panelists[:1]` fires only when the selection is non-empty but matches
no configured panelist, and then only that first panelist is invoked. -/
theorem empty_selection_uses_all_panelists (all_panelists : List AgentInfo)
    (selected : List String) :
    (selected = [] → resolve_panelists all_panelists selected = all_panelists) ∧
    (selected ≠ [] →
      all_panelists.filter (fun p => decide (p.name ∈ selected)) = [] →
      resolve_panelists all_panelists selected = all_panelists.take 1) := by
  constructor
  · intro hsel
    subst hsel
    unfold resolve_panelists
    simp only [List.isEmpty_nil, if_pos]
    cases all_panelists with
    | nil => rfl
    | cons a t => rfl
  · intro hsel hfil
    cases selected with
    | nil => exact absurd rfl hsel
    | cons a t =>
      show (if (all_panelists.filter
              (fun p => decide (p.name ∈ (a :: t : List String)))).isEmpty
            then all_panelists.take 1
            else all_panelists.filter
              (fun p => decide (p.name ∈ (a :: t : List String)))) =
          all_panelists.take 1
      rw [hfil]
      rfl

/-- C9 counterexample.  With panelists `[A, B]` and an empty selection, the
resolved responder set is `[A, B]` (both are invoked: the node returns two
messages), not the single first panelist the claim describes. -/
theorem empty_selection_counterexample :
    resolve_panelists [pA, pB] [] = [pA, pB] ∧
    ¬ resolve_panelists [pA, pB] [] = [pA] ∧
    (panelist_discussion_node [host_h, pA, pB] [] 0
        (fun a => .ok (a.name ++ " view"))).messages.length = 2 := by
  refine ⟨by decide, by decide, rfl⟩

/-- C9 witness: the amended theorem applied at the concrete roster
`[A, B]` with an empty selection and with an unmatched selection. -/
theorem empty_selection_uses_all_panelists_witness :
    resolve_panelists [pA, pB] [] = [pA, pB] ∧
    resolve_panelists [pA, pB] ["Z"] = [pA] :=
  ⟨(empty_selection_uses_all_panelists [pA, pB] []).1 rfl,
   (empty_selection_uses_all_panelists [pA, pB] ["Z"]).2 (by decide) (by decide)⟩

/-- C10.  `_extract_json_object` returns `None` whenever the parsed JSON
content is a valid value that is not an object: on the direct parse of the
fence-stripped text, on the brace-substring retry, and concretely for a
top-level array and a bare string. -/
theorem extract_json_rejects_non_objects :
    (∀ t v, json_loads (strip_code_fence t) = some v → is_json_obj v = false →
      extract_json_object t = none) ∧
    (∀ t s v, json_loads (strip_code_fence t) = none →
      brace_substring (strip_code_fence t) = some s → json_loads s = some v →
      is_json_obj v = false → extract_json_object t = none) ∧
    extract_json_object "[1, 2]" = none ∧
    extract_json_object "\"plain\"" = none := by
  refine ⟨?_, ?_, rfl, rfl⟩
  · intro t v h1 h2
    simp only [extract_json_object]
    rw [h1]
    cases v with
    | obj fields => simp [is_json_obj] at h2
    | null => rfl
    | bool b => rfl
    | num lex => rfl
    | str s => rfl
    | arr items => rfl
  · intro t s v h1 h2 h3 h4
    simp only [extract_json_object]
    rw [h1, h2]
    dsimp only
    rw [h3]
    cases v with
    | obj fields => simp [is_json_obj] at h4
    | null => rfl
    | bool b => rfl
    | num lex => rfl
    | str s2 => rfl
    | arr items => rfl

/-- C10 witness: the direct-parse clause applied at the concrete top-level
array `"[1, 2]"`, whose fence-stripped text parses to a non-object. -/
theorem extract_json_rejects_non_objects_witness :
    extract_json_object "[1, 2]" = none :=
  extract_json_rejects_non_objects.1 "[1, 2]" (.arr [.num "1", .num "2"]) rfl rfl

/-! ### Dict lemmas for the task map -/

lemma dict_get_map_replace (k v : String) :
    ∀ d : List (String × String), d.any (fun p => p.1 == k) = true →
      dict_get (d.map (fun p => if p.1 == k then (k, v) else p)) k = some v := by
  intro d
  induction d with
  | nil => intro h; simp at h
  | cons a t ih =>
    intro hany
    simp only [List.map_cons]
    by_cases hk : (a.1 == k) = true
    · rw [if_pos hk]
      unfold dict_get
      rw [List.find?_cons_of_pos _ (by simp)]
      rfl
    · rw [if_neg hk]
      unfold dict_get
      rw [List.find?_cons_of_neg _ (by simpa using hk)]
      apply ih
      rw [List.any_cons, Bool.eq_false_iff.mpr hk, Bool.false_or] at hany
      exact hany

lemma dict_get_append_self (d : List (String × String)) (k v : String)
    (h : d.any (fun p => p.1 == k) = false) :
    dict_get (d ++ [(k, v)]) k = some v := by
  induction d with
  | nil =>
    unfold dict_get
    rw [List.nil_append, List.find?_cons_of_pos _ (by simp)]
    rfl
  | cons a t ih =>
    rw [List.any_cons] at h
    rcases Bool.or_eq_false_iff.mp h with ⟨h1, h2⟩
    unfold dict_get
    rw [List.cons_append, List.find?_cons_of_neg _ (by simp [h1])]
    exact ih h2

lemma dict_get_set_self (d : List (String × String)) (k v : String) :
    dict_get (dict_set d k v) k = some v := by
  unfold dict_set
  by_cases hany : (d.any (fun p => p.1 == k)) = true
  · rw [if_pos hany]
    exact dict_get_map_replace k v d hany
  · rw [if_neg hany]
    exact dict_get_append_self d k v (Bool.eq_false_iff.mpr hany)

lemma dict_get_map_replace_ne (k v n : String) (hne : (n == k) = false) :
    ∀ d : List (String × String),
      dict_get (d.map (fun p => if p.1 == k then (k, v) else p)) n = dict_get d n := by
  intro d
  induction d with
  | nil => rfl
  | cons a t ih =>
    simp only [List.map_cons]
    have hkn : (k == n) = false := by
      rw [beq_eq_false_iff_ne] at hne ⊢
      exact fun hx => hne hx.symm
    by_cases hk : (a.1 == k) = true
    · rw [if_pos hk]
      have han : (a.1 == n) = false := by
        rw [beq_iff_eq] at hk
        rw [hk]
        exact hkn
      unfold dict_get
      simp only [List.find?_cons, hkn, han]
      exact ih
    · rw [if_neg hk]
      unfold dict_get
      by_cases han : (a.1 == n) = true
      · simp only [List.find?_cons, han]
      · have hf : (a.1 == n) = false := Bool.eq_false_iff.mpr han
        simp only [List.find?_cons, hf]
        exact ih

lemma dict_get_append_ne (d : List (String × String)) (k v n : String)
    (hne : (k == n) = false) :
    dict_get (d ++ [(k, v)]) n = dict_get d n := by
  induction d with
  | nil =>
    unfold dict_get
    simp only [List.nil_append, List.find?_cons, hne]
  | cons a t ih =>
    unfold dict_get
    by_cases han : (a.1 == n) = true
    · simp only [List.cons_append, List.find?_cons, han]
    · have hf : (a.1 == n) = false := Bool.eq_false_iff.mpr han
      simp only [List.cons_append, List.find?_cons, hf]
      exact ih

lemma dict_get_set_ne (d : List (String × String)) (k v n : String) (hne : n ≠ k) :
    dict_get (dict_set d k v) n = dict_get d n := by
  unfold dict_set
  by_cases hany : (d.any (fun p => p.1 == k)) = true
  · rw [if_pos hany]
    exact dict_get_map_replace_ne k v n (beq_eq_false_iff_ne.2 hne) d
  · rw [if_neg hany]
    exact dict_get_append_ne d k v n (beq_eq_false_iff_ne.2 (fun hx => hne hx.symm))

/-- A task entry that is present and non-empty. -/
def has_task (tasks : List (String × String)) (n : String) : Prop :=
  ∃ t, dict_get tasks n = some t ∧ t ≠ ""

lemma has_task_fill_step (acc : List (String × String)) (m n : String)
    (h : has_task acc n) :
    has_task
      (if ((dict_get acc m).getD "").isEmpty then dict_set acc m DEFAULT_TASK else acc)
      n := by
  split
  · by_cases hnm : n = m
    · subst hnm
      exact ⟨DEFAULT_TASK, dict_get_set_self acc n DEFAULT_TASK, by decide⟩
    · rcases h with ⟨t, hget, hne⟩
      exact ⟨t, (dict_get_set_ne acc m DEFAULT_TASK n hnm).trans hget, hne⟩
  · exact h

lemma has_task_fill_self (acc : List (String × String)) (m : String) :
    has_task
      (if ((dict_get acc m).getD "").isEmpty then dict_set acc m DEFAULT_TASK else acc)
      m := by
  split
  · exact ⟨DEFAULT_TASK, dict_get_set_self acc m DEFAULT_TASK, by decide⟩
  · next hc =>
    cases hget : dict_get acc m with
    | none =>
      exfalso
      rw [hget] at hc
      exact hc rfl
    | some t =>
      refine ⟨t, hget, ?_⟩
      intro ht
      rw [hget, ht] at hc
      exact hc rfl

lemma fill_default_tasks_has : ∀ (names : List String) (acc : List (String × String))
    (n : String), n ∈ names ∨ has_task acc n →
    has_task (fill_default_tasks acc names) n := by
  intro names
  induction names with
  | nil =>
    intro acc n h
    rcases h with h | h
    · simp at h
    · exact h
  | cons m rest ih =>
    intro acc n h
    show has_task (fill_default_tasks
      (if ((dict_get acc m).getD "").isEmpty then dict_set acc m DEFAULT_TASK else acc)
      rest) n
    apply ih
    rcases h with h | h
    · rcases List.mem_cons.1 h with rfl | hm
      · exact Or.inr (has_task_fill_self acc n)
      · exact Or.inl hm
    · exact Or.inr (has_task_fill_step acc m n h)

lemma parse_host_routing_unparsed (raw : String) (panelists : List AgentInfo)
    (constraints : Constraints) (srm : Bool)
    (hext : extract_json_object raw = none) :
    parse_host_routing raw panelists constraints srm =
      { plan_text := py_strip raw,
        selected :=
          (if (normalize_selection [] panelists constraints).isEmpty &&
              !(panelists.map (fun p => p.name)).isEmpty
           then (panelists.map (fun p => p.name)).take 1
           else normalize_selection [] panelists constraints),
        tasks := fill_default_tasks []
          (if (normalize_selection [] panelists constraints).isEmpty &&
              !(panelists.map (fun p => p.name)).isEmpty
           then (panelists.map (fun p => p.name)).take 1
           else normalize_selection [] panelists constraints),
        needs_synthesis := false, execution_mode := "panelists",
        intent_judgment := DEFAULT_INTENT, host_position := DEFAULT_POSITION,
        reasoning_text := "", open_tasks := [FALLBACK_OPEN_TASK] } := by
  unfold parse_host_routing
  rw [hext]
  cases srm <;> rfl

/-- C3.  On the unparseable input `"not json"` with the two-panelist roster
`[A, B]`, empty constraints and `single_round_mode=True`,
`_parse_host_routing` selects exactly `["A", "B"]`, assigns both panelists
the non-empty default task, uses execution mode `"panelists"` and
`needs_synthesis=False`; and in general every raw input on which
`_extract_json_object` fails yields a usable fallback decision: a non-empty
selection (whenever a panelist is configured), a non-empty task per selected
panelist, mode `"panelists"` and no synthesis. -/
theorem unparseable_routing_falls_back :
    ((parse_host_routing "not json" roster_ab {} true).selected = ["A", "B"] ∧
     dict_get (parse_host_routing "not json" roster_ab {} true).tasks "A" =
       some DEFAULT_TASK ∧
     dict_get (parse_host_routing "not json" roster_ab {} true).tasks "B" =
       some DEFAULT_TASK ∧
     DEFAULT_TASK ≠ "" ∧
     (parse_host_routing "not json" roster_ab {} true).execution_mode = "panelists" ∧
     (parse_host_routing "not json" roster_ab {} true).needs_synthesis = false) ∧
    (∀ (raw : String) (panelists : List AgentInfo) (constraints : Constraints)
        (srm : Bool),
      extract_json_object raw = none → panelists ≠ [] →
      (parse_host_routing raw panelists constraints srm).selected ≠ [] ∧
      (parse_host_routing raw panelists constraints srm).execution_mode =
        "panelists" ∧
      (parse_host_routing raw panelists constraints srm).needs_synthesis = false ∧
      ∀ n ∈ (parse_host_routing raw panelists constraints srm).selected,
        ∃ t, dict_get (parse_host_routing raw panelists constraints srm).tasks n =
          some t ∧ t ≠ "") := by
  constructor
  · exact ⟨by decide, by decide, by decide, by decide, by decide, by decide⟩
  · intro raw panelists constraints srm hext hpan
    rw [parse_host_routing_unparsed raw panelists constraints srm hext]
    refine ⟨?_, rfl, rfl, ?_⟩
    · -- the resolved selection is non-empty
      by_cases hsel : (normalize_selection [] panelists constraints).isEmpty = true
      · have hnm : (panelists.map (fun p => p.name)).isEmpty = false := by
          cases panelists with
          | nil => exact absurd rfl hpan
          | cons a t => rfl
        rw [hsel, hnm]
        cases panelists with
        | nil => exact absurd rfl hpan
        | cons a t => simp
      · have hf : (normalize_selection [] panelists constraints).isEmpty = false :=
          Bool.eq_false_iff.mpr hsel
        rw [hf]
        simp only [Bool.false_and, Bool.false_eq_true, if_false]
        exact fun hx => hsel (by rw [hx]; rfl)
    · intro n hn
      exact fill_default_tasks_has _ [] n (Or.inl hn)

/-- C3 witness: the general fallback clause applied at a concrete
unparseable input and one-panelist roster. -/
theorem unparseable_routing_falls_back_witness :
    (parse_host_routing "???" [pA] {} false).selected ≠ [] ∧
    (parse_host_routing "???" [pA] {} false).execution_mode = "panelists" :=
  ⟨(unparseable_routing_falls_back.2 "???" [pA] {} false (by rfl) (by decide)).1,
   (unparseable_routing_falls_back.2 "???" [pA] {} false (by rfl) (by decide)).2.1⟩

/-- C5.  When the configured panelists are `[p1, p2]` and both respond (the
resolved set is `[p1, p2]`), and exactly one of the two LLM calls raises
while the other succeeds, `panelist_discussion_node` still returns exactly
two messages: the failing panelist's entry is the inline
`"[Error: ...]"` marker, the succeeding panelist's entry is its real output
unchanged, and the node itself returns normally (no error result). -/
theorem panelist_failure_is_isolated (agents : List AgentInfo)
    (selected : List String) (r : Int) (llm : AgentInfo → Except String String)
    (p1 p2 : AgentInfo) (e out : String)
    (hall : get_agents_by_role agents "panelist" = [p1, p2])
    (hres : resolve_panelists [p1, p2] selected = [p1, p2]) :
    (panelist_discussion_node agents selected r llm).error = none ∧
    (panelist_discussion_node agents selected r llm).messages.length = 2 ∧
    (llm p1 = .error e → llm p2 = .ok out →
      (panelist_discussion_node agents selected r llm).messages.map
          (fun m => m.content) =
        ["[Error: " ++ e ++ "]", out]) ∧
    (llm p1 = .ok out → llm p2 = .error e →
      (panelist_discussion_node agents selected r llm).messages.map
          (fun m => m.content) =
        [out, "[Error: " ++ e ++ "]"]) := by
  have hnode : panelist_discussion_node agents selected r llm =
      { messages := [panelist_message llm r p1, panelist_message llm r p2],
        phase := "discussing" } := by
    unfold panelist_discussion_node
    rw [hall]
    rw [if_neg (by simp)]
    rw [hres]
    rfl
  rw [hnode]
  refine ⟨rfl, rfl, ?_, ?_⟩
  · intro h1 h2
    simp only [List.map_cons, List.map_nil]
    unfold panelist_message
    rw [h1, h2]
  · intro h1 h2
    simp only [List.map_cons, List.map_nil]
    unfold panelist_message
    rw [h1, h2]

/-- An LLM oracle that raises for panelist "A" and succeeds otherwise. -/
def llm_fail_a : AgentInfo → Except String String :=
  fun a => if a.name == "A" then .error "boom" else .ok "fine"

/-- C5 witness: the theorem applied at the concrete roster
`[H, A, B]`, selection `["A", "B"]`, with `A`'s call raising. -/
theorem panelist_failure_is_isolated_witness :
    (panelist_discussion_node [host_h, pA, pB] ["A", "B"] 0 llm_fail_a).messages.map
        (fun m => m.content) =
      ["[Error: boom]", "fine"] :=
  (panelist_failure_is_isolated [host_h, pA, pB] ["A", "B"] 0 llm_fail_a pA pB
    "boom" "fine" (by decide) (by decide)).2.2.1 rfl rfl

/-! ### Lemmas about the anchor formatter accumulator -/

lemma anchor_run_nil (messages : List Msg) (B : Nat) (st : AnchorState) :
    anchor_run messages B st [] = st := rfl

lemma anchor_run_cons (messages : List Msg) (B : Nat) (st : AnchorState)
    (p : Nat × Bool) (rest : List (Nat × Bool)) :
    anchor_run messages B st (p :: rest) =
      anchor_run messages B (anchor_add messages B st p.1 p.2) rest := rfl

lemma anchor_run_append (messages : List Msg) (B : Nat) (st : AnchorState)
    (l1 l2 : List (Nat × Bool)) :
    anchor_run messages B st (l1 ++ l2) =
      anchor_run messages B (anchor_run messages B st l1) l2 := by
  unfold anchor_run
  rw [List.foldl_append]

lemma prio_cost_mk (messages : List Msg) (i : Nat) (c : Bool) :
    prio_cost messages (i, c) = (to_line (messages.getD i default) c).length + 2 := rfl

lemma anchor_add_invariant (messages : List Msg) (B : Nat) (st : AnchorState)
    (i : Nat) (c : Bool) (h1 : st.used = chosen_cost st.chosen) (h2 : st.used ≤ B) :
    (anchor_add messages B st i c).used =
      chosen_cost (anchor_add messages B st i c).chosen ∧
    (anchor_add messages B st i c).used ≤ B := by
  unfold anchor_add
  split
  · exact ⟨h1, h2⟩
  · dsimp only
    split
    · exact ⟨h1, h2⟩
    · next hb =>
      constructor
      · unfold chosen_cost at h1 ⊢
        rw [List.map_append, List.sum_append, ← h1]
        simp
      · dsimp only
        omega

lemma anchor_run_invariant (messages : List Msg) (B : Nat) :
    ∀ (prios : List (Nat × Bool)) (st : AnchorState),
      st.used = chosen_cost st.chosen → st.used ≤ B →
      (anchor_run messages B st prios).used =
        chosen_cost (anchor_run messages B st prios).chosen ∧
      (anchor_run messages B st prios).used ≤ B := by
  intro prios
  induction prios with
  | nil => intro st h1 h2; exact ⟨h1, h2⟩
  | cons p rest ih =>
    intro st h1 h2
    rw [anchor_run_cons]
    have h := anchor_add_invariant messages B st p.1 p.2 h1 h2
    exact ih _ h.1 h.2

lemma chosen_has_anchor_add (messages : List Msg) (B : Nat) (st : AnchorState)
    (i : Nat) (c : Bool) (j : Nat) (h : chosen_has st j = true) :
    chosen_has (anchor_add messages B st i c) j = true := by
  unfold anchor_add
  split
  · exact h
  · dsimp only
    split
    · exact h
    · unfold chosen_has at h ⊢
      rw [List.any_append, h]
      rfl

lemma chosen_has_anchor_run (messages : List Msg) (B : Nat) :
    ∀ (prios : List (Nat × Bool)) (st : AnchorState) (j : Nat),
      chosen_has st j = true →
      chosen_has (anchor_run messages B st prios) j = true := by
  intro prios
  induction prios with
  | nil => intro st j h; exact h
  | cons p rest ih =>
    intro st j h
    rw [anchor_run_cons]
    exact ih _ j (chosen_has_anchor_add messages B st p.1 p.2 j h)

lemma anchor_add_used_le (messages : List Msg) (B : Nat) (st : AnchorState)
    (i : Nat) (c : Bool) :
    (anchor_add messages B st i c).used ≤ st.used + prio_cost messages (i, c) := by
  unfold anchor_add
  split
  · exact Nat.le_add_right _ _
  · dsimp only
    split
    · exact Nat.le_add_right _ _
    · rw [prio_cost_mk]

lemma anchor_add_puts (messages : List Msg) (B : Nat) (st : AnchorState)
    (i : Nat) (c : Bool) (hc : st.used + prio_cost messages (i, c) ≤ B) :
    chosen_has (anchor_add messages B st i c) i = true := by
  unfold anchor_add
  split
  · next h => exact h
  · dsimp only
    split
    · next hb =>
      rw [prio_cost_mk] at hc
      omega
    · unfold chosen_has
      rw [List.any_append]
      simp

lemma anchor_run_adds_all (messages : List Msg) (B : Nat) :
    ∀ (prios : List (Nat × Bool)) (st : AnchorState),
      st.used + (prios.map (prio_cost messages)).sum ≤ B →
      ∀ p ∈ prios, chosen_has (anchor_run messages B st prios) p.1 = true := by
  intro prios
  induction prios with
  | nil =>
    intro st h p hp
    simp at hp
  | cons q rest ih =>
    intro st h p hp
    rw [List.map_cons, List.sum_cons] at h
    have hqpair : prio_cost messages (q.1, q.2) = prio_cost messages q := rfl
    have hq : st.used + prio_cost messages (q.1, q.2) ≤ B := by
      rw [hqpair]
      omega
    have hst : (anchor_add messages B st q.1 q.2).used +
        (rest.map (prio_cost messages)).sum ≤ B := by
      have hle := anchor_add_used_le messages B st q.1 q.2
      rw [hqpair] at hle
      omega
    rw [anchor_run_cons]
    rcases List.mem_cons.1 hp with rfl | hrest
    · exact chosen_has_anchor_run messages B rest _ p.1
        (anchor_add_puts messages B st p.1 p.2 hq)
    · exact ih _ hst p hrest

lemma find_first_index_lt {α : Type} (p : α → Bool) :
    ∀ (xs : List α) (i : Nat), find_first_index p xs = some i → i < xs.length := by
  intro xs
  induction xs with
  | nil => intro i h; cases h
  | cons x rest ih =>
    intro i h
    unfold find_first_index at h
    split at h
    · cases h
      simp
    · cases hf : find_first_index p rest with
      | none =>
        rw [hf] at h
        cases h
      | some j =>
        rw [hf] at h
        cases h
        have := ih j hf
        simp only [List.length_cons]
        omega

lemma mem_anchor_prios_head_lt (messages : List Msg) (k : Nat) (p : Nat × Bool)
    (hp : p ∈ anchor_prios_head messages k) : p.1 < messages.length := by
  unfold anchor_prios_head at hp
  rcases List.mem_append.1 hp with h | h
  · split at h
    · next i hf =>
      rcases List.mem_singleton.1 h with rfl
      exact find_first_index_lt _ messages i hf
    · simp at h
  · rcases List.mem_map.1 h with ⟨i, hi, rfl⟩
    unfold head_round_indices at hi
    exact List.mem_range.1 (List.mem_filter.1 hi).1

lemma mem_anchors_included (messages : List Msg) (B kh kt i : Nat)
    (hlt : i < messages.length)
    (hch : chosen_has (anchors_state messages B kh kt) i = true) :
    i ∈ anchors_included messages B kh kt := by
  unfold anchors_included
  exact List.mem_filter.2 ⟨List.mem_range.2 hlt, hch⟩

/-- C2 (amended).  For every message list and character budget `B`, the
total formatted-line cost (sum over included lines of line length plus the
2-character separator charge) never exceeds `B` — the omission notice is
excluded from the accounting, exactly as in `add_idx`. -/
theorem format_history_budget_bound (messages : List Msg)
    (B keepHead keepTail : Nat) :
    chosen_cost (anchors_state messages B keepHead keepTail).chosen ≤ B := by
  have h := anchor_run_invariant messages B
    (anchor_prios messages keepHead keepTail) ⟨[], 0⟩ rfl (Nat.zero_le B)
  unfold anchors_state
  rw [← h.1]
  exact h.2

/-- The first counterexample history: one long user message and two short
panelist messages (no round numbers). -/
def msg_user_long : Msg :=
  { agent_name := "U", agent_role := "user",
    content := "aaaaaaaaaaaaaaaaaaaaaaaaaaaaaaaaaaaaaaaaaaaaaaaaaa", phase := "p" }

/-- A short panelist message. -/
def msg_short : Msg :=
  { agent_name := "A", agent_role := "panelist", content := "hi", phase := "p" }

/-- The history refuting budget monotonicity. -/
def history_cx : List Msg := [msg_user_long, msg_short, msg_short]

/-- C2 counterexample.  Decreasing the budget CAN increase the number of
included messages: at `B = 61` the greedy pass admits only the long user
line (cost 61) and then rejects both short lines; at `B = 60` it rejects
the long line and admits the two short ones. -/
theorem shrinking_budget_can_add_messages :
    60 < 61 ∧
    (anchors_included history_cx 61 2 24).length = 1 ∧
    (anchors_included history_cx 60 2 24).length = 2 := by
  exact ⟨by decide, by decide, by decide⟩

/-- C6 (amended).  The first user message is always attempted first, so it
is present whenever its own line cost fits the budget; and whenever the
COMBINED cost of the priority-1/priority-2 lines (first user message plus
all head-round lines) fits within `B`, every one of them is present in the
output no matter how many or how large the tail messages are — tail
messages can never displace them.  (Individually fitting is not enough for
a head-round message: earlier head lines can exhaust the budget first; see
the counterexample.) -/
theorem head_anchor_guarantee (messages : List Msg) (B keepHead keepTail : Nat) :
    (∀ i, find_first_index (fun m => m.agent_role == "user") messages = some i →
      prio_cost messages (i, true) ≤ B →
      i ∈ anchors_included messages B keepHead keepTail) ∧
    (((anchor_prios_head messages keepHead).map (prio_cost messages)).sum ≤ B →
      ∀ p ∈ anchor_prios_head messages keepHead,
        p.1 ∈ anchors_included messages B keepHead keepTail) := by
  constructor
  · intro i hfind hcost
    apply mem_anchors_included _ _ _ _ _ (find_first_index_lt _ messages i hfind)
    unfold anchors_state anchor_prios anchor_prios_head
    rw [hfind]
    simp only [List.cons_append, List.nil_append, List.append_assoc]
    rw [anchor_run_cons]
    apply chosen_has_anchor_run
    apply anchor_add_puts
    simpa using hcost
  · intro hsum p hp
    apply mem_anchors_included _ _ _ _ _ (mem_anchor_prios_head_lt messages keepHead p hp)
    unfold anchors_state anchor_prios
    rw [anchor_run_append]
    apply chosen_has_anchor_run
    exact anchor_run_adds_all messages B _ _ (by simpa using hsum) p hp

/-- The head-round counterexample history: a long head user message, a
medium head panelist message and a short head panelist message. -/
def msg_user_head : Msg := { msg_user_long with round_number := some 0 }

/-- The medium head-round message. -/
def msg_mid_head : Msg :=
  { agent_name := "A", agent_role := "panelist",
    content := "bbbbbbbbbbbbbbbbbbbbbbbbbbbbbbbbbbbbbbbb",
    round_number := some 0, phase := "p" }

/-- The short head-round message that is crowded out. -/
def msg_tail_head : Msg :=
  { agent_name := "A", agent_role := "panelist", content := "hi",
    round_number := some 0, phase := "p" }

/-- The history refuting per-message head inclusion. -/
def history_head_cx : List Msg := [msg_user_head, msg_mid_head, msg_tail_head]

/-- C6 counterexample.  Message 2 is a head-round message whose line
individually fits the budget (cost 13 ≤ 115), yet it is absent from the
output: the first user line (61) and the earlier head line (51) exhaust the
budget first. -/
theorem individually_fitting_head_can_be_omitted :
    2 ∈ head_round_indices history_head_cx 2 ∧
    prio_cost history_head_cx (2, true) ≤ 115 ∧
    2 ∉ anchors_included history_head_cx 115 2 24 := by
  exact ⟨by decide, by decide, by decide⟩

/-- A one-message history for the C6 witness. -/
def msg_w : Msg :=
  { agent_name := "U", agent_role := "user", content := "hi",
    round_number := some 0, phase := "p" }

/-- C6 witness: both clauses of the amended theorem applied at the concrete
one-message history with budget 50. -/
theorem head_anchor_guarantee_witness :
    0 ∈ anchors_included [msg_w] 50 2 24 ∧
    ∀ p ∈ anchor_prios_head [msg_w] 2, p.1 ∈ anchors_included [msg_w] 50 2 24 :=
  ⟨(head_anchor_guarantee [msg_w] 50 2 24).1 0 (by rfl) (by decide),
   (head_anchor_guarantee [msg_w] 50 2 24).2 (by decide)⟩

end Roundtable
